import Mathlib

/-!
Verification development for the `localhost-magic` local development TLS
authority.  The `Probe` namespace embeds `internal/probe/http.go`; the
`LocalTLS` namespace models the certificate-authority core (policy, issuer,
inventory) described by the project's design document, whose Go sources are
not part of this tree.
-/

namespace Probe

/-- Outcome of the network interaction performed by the probe functions in
`internal/probe/http.go`: the TCP dial can fail, the request write can fail,
reading the first response line can fail, or a first line is obtained. -/
inductive NetOutcome where
  | dialFail
  | writeFail
  | readFail
  | line (s : String)
  deriving DecidableEq, Repr

/-- Characters treated as white space by Go's `strings.TrimSpace`
(ASCII subset, which is what HTTP status lines contain). -/
def isSpaceChar (c : Char) : Bool :=
  c = ' ' || c = '\t' || c = '\n' || c = '\r' || c = '\x0b' || c = '\x0c'

/-- Go `strings.TrimSpace`: drop white space from both ends. -/
def goTrimSpace (s : String) : String :=
  ⟨((s.data.dropWhile isSpaceChar).reverse.dropWhile isSpaceChar).reverse⟩

/-- Go `strings.ToUpper` (ASCII behaviour, via `Char.toUpper`). -/
def goToUpper (s : String) : String :=
  ⟨s.data.map Char.toUpper⟩

/-- `startsWithList p l` is true when `p` is an initial segment of `l`. -/
def startsWithList : List Char → List Char → Bool
  | [], _ => true
  | _ :: _, [] => false
  | p :: ps, c :: cs => p = c && startsWithList ps cs

/-- Go `strings.HasPrefix s pre`. -/
def goStartsWith (s pre : String) : Bool :=
  startsWithList pre.data s.data

/-- `IsHTTP` from `internal/probe/http.go`, with the network interaction
abstracted into a `NetOutcome`: every failure path returns `false`; on a
successfully read first line the result is
`strings.HasPrefix(strings.ToUpper(strings.TrimSpace(line)), "HTTP/")`. -/
def IsHTTP (net : NetOutcome) : Bool :=
  match net with
  | .dialFail => false
  | .writeFail => false
  | .readFail => false
  | .line l => goStartsWith (goToUpper (goTrimSpace l)) "HTTP/"

/-- `ProbeResult` from `internal/probe/http.go`.  The Go zero value of the
`Response` field is the empty string. -/
structure ProbeResult where
  isHTTP : Bool
  response : String
  deriving DecidableEq, Repr

/-- `Probe` from `internal/probe/http.go`, with the network interaction
abstracted into a `NetOutcome`.  Failure paths return
`ProbeResult{IsHTTP: false}` (so `Response` is the zero value `""`); on a
successfully read line the trimmed line is stored and classified. -/
def Probe (net : NetOutcome) : ProbeResult :=
  match net with
  | .dialFail => { isHTTP := false, response := "" }
  | .writeFail => { isHTTP := false, response := "" }
  | .readFail => { isHTTP := false, response := "" }
  | .line l =>
    let response := goTrimSpace l
    { isHTTP := goStartsWith (goToUpper response) "HTTP/", response := response }

end Probe

namespace LocalTLS

/-- Split a character list on dots, keeping empty segments
(`"a..b"` yields `["a", "", "b"]`), as Go's `strings.Split` does. -/
def splitOnDot : List Char → List (List Char)
  | [] => [[]]
  | c :: rest =>
    if c = '.' then [] :: splitOnDot rest
    else match splitOnDot rest with
      | [] => [[c]]
      | l :: ls => (c :: l) :: ls

/-- Strip a single trailing root dot, per the name-parsing rule. -/
def stripRootDot (cs : List Char) : List Char :=
  if cs.getLast? = some '.' then cs.dropLast else cs

/-- A letter, digit or hyphen (the LDH character set). -/
def isLdhChar (c : Char) : Bool :=
  c.isAlpha || c.isDigit || c = '-'

/-- A syntactically valid label: either the wildcard label `*`, or a
non-empty LDH string of at most 63 characters. -/
def validLabel (l : String) : Bool :=
  l = "*" || (decide (l.data ≠ []) && decide (l.data.length ≤ 63) && l.data.all isLdhChar)

/-- Modelled from the spec: rule 1 of `policy.validate` (package
`internal/tls/policy`, not in this tree).  The name must parse as a DNS
name: at most 253 octets after stripping a single trailing root dot, split
into dot-separated labels, each a valid LDH label (the wildcard label `*`
is tolerated here and constrained by rule 2). -/
def parseName (s : String) : Option (List String) :=
  let cs := stripRootDot s.data
  if cs.length = 0 ∨ 253 < cs.length then none
  else
    let labels := (splitOnDot cs).map (fun l => (⟨l⟩ : String))
    if labels.all validLabel then some labels else none

/-- Error kinds of `policy.validate`, as named by the spec. -/
inductive PolicyError where
  | parseError
  | wildcardPosition
  | wildcardTooShallow
  | tldNotAllowed
  | tldPublic
  deriving DecidableEq, Repr

/-- The hardcoded single-label TLD allowlist. -/
def allowlist : List String := ["localhost", "test", "localdev", "internal"]

/-- Modelled from the spec: the embedded IANA TLD blocklist (a static byte
asset compiled into the binary, not in this tree), represented by the
entries the design document names explicitly. -/
def tldBlocklist : List String := ["com", "dev", "io", "org", "net"]

/-- The labels with a leading wildcard label stripped (rule 3's
"effective base"). -/
def effectiveBase (labels : List String) : List String :=
  if labels.head? = some "*" then labels.tail else labels

/-- Rule 4: the right-most label is in the allowlist, or the name ends in
the special two-label suffix `home.arpa`. -/
def allowlistOk (labels : List String) : Bool :=
  match labels.reverse with
  | [] => false
  | t :: rest =>
    allowlist.contains t ||
      (t = "arpa" && (match rest with
        | h :: _ => h = "home"
        | [] => false))

/-- Rule 5: the effective TLD (right-most label) appears in the embedded
IANA TLD blocklist. -/
def blocklistHit (labels : List String) : Bool :=
  match labels.getLast? with
  | some t => tldBlocklist.contains t
  | none => false

/-- Modelled from the spec: `policy.validate` (package
`internal/tls/policy`, not in this tree).  Rules evaluated in order:
(1) parse as a DNS name, else `parseError`; (2) at most one `*` label and
only left-most, else `wildcardPosition`; (3) the effective base must have
at least 2 labels, else `wildcardTooShallow`; (4) the right-most label must
be in the allowlist (or the `home.arpa` suffix), else `tldNotAllowed`;
(5) the effective TLD must not be in the IANA blocklist, else
`tldPublic`. -/
def validate (name : String) : Except PolicyError Unit :=
  match parseName name with
  | none => .error .parseError
  | some labels =>
    if "*" ∈ labels.tail then .error .wildcardPosition
    else if (effectiveBase labels).length < 2 then .error .wildcardTooShallow
    else if allowlistOk labels = false then .error .tldNotAllowed
    else if blocklistHit labels then .error .tldPublic
    else .ok ()

/-- IP addresses in canonical form (rule 6 compares IPs by canonical
octet form, so structural equality is canonical equality). -/
inductive IpAddr where
  | v4 (a b c d : Nat)
  | v6 (segments : List Nat)
  deriving DecidableEq, Repr

/-- Modelled from the spec: rule 6 of the policy (package
`internal/tls/policy`, not in this tree).  Only loopback (`127.0.0.0/8`,
`::1`) and RFC1918/ULA ranges are accepted. -/
def ipAllowed : IpAddr → Bool
  | .v4 a b _ _ =>
    a = 127 || a = 10 || (a = 172 && (decide (16 ≤ b) && decide (b ≤ 31))) ||
      (a = 192 && b = 168)
  | .v6 segs =>
    segs = [0, 0, 0, 0, 0, 0, 0, 1] ||
      (match segs with
        | s :: _ => decide (0xfc00 ≤ s) && decide (s ≤ 0xfdff)
        | [] => false)

/-- Lowercase a DNS name (character-wise, as Go's `strings.ToLower` does
on ASCII names). -/
def lowerName (s : String) : String :=
  ⟨s.data.map Char.toLower⟩

/-- Wildcard expansion: a name of the form `*.X` contributes both the
wildcard and its apex `X` to the SAN list; any other name contributes
itself only. -/
def expandOne (n : String) : List String :=
  match n.data with
  | '*' :: '.' :: rest => [n, ⟨rest⟩]
  | _ => [n]

/-- Modelled from the spec: SAN normalization of the issuer (package
`internal/tls/issuer`, not in this tree).  Requested DNS names are
lowercased, wildcards are expanded with their apex, and the result is
deduplicated. -/
def normalizeDns (names : List String) : List String :=
  ((names.map lowerName).flatMap expandOne).dedup

/-- Default leaf validity: 24 hours, in seconds. -/
def defaultValidity : Nat := 24 * 3600

/-- `IssueRequest` from the issuance interface: DNS names, IPs, and a
requested validity in seconds where `0` means the 24h default. -/
structure IssueRequest where
  dnsNames : List String
  ips : List IpAddr
  validFor : Nat
  deriving DecidableEq, Repr

/-- The certificate material returned to callers: normalized SANs, serial,
subject CN (first DNS name, display only) and validity window.  Times are
seconds since an arbitrary epoch. -/
structure Certificate where
  dnsSans : List String
  ipSans : List IpAddr
  serial : Nat
  subject : String
  notBefore : Nat
  notAfter : Nat
  deriving DecidableEq, Repr

/-- An inventory record, one per issued leaf (spec §3). -/
structure Record where
  serial : Nat
  subject : String
  dnsSans : List String
  ipSans : List IpAddr
  notBefore : Nat
  notAfter : Nat
  revoked : Bool
  deriving DecidableEq, Repr

/-- Modelled from the spec: the issuer's persistent state (package
`internal/tls/issuer`, not in this tree).  The 128-bit random serial
generator is modelled as a monotone counter `nextSerial`, which keeps the
spec's guarantee that fresh serials never collide with existing ones.
`intermediateNotAfter` is the expiry of the current intermediate CA
certificate. -/
structure IssuerState where
  inventory : List Record
  nextSerial : Nat
  intermediateNotAfter : Nat
  deriving DecidableEq, Repr

/-- Error kinds of the issuance interface relevant to the policy and
cache claims. -/
inductive IssueError where
  | policyViolation (name : String) (reason : PolicyError)
  | ipNotAllowed (ip : IpAddr)
  | notFound
  deriving DecidableEq, Repr

/-- First DNS name failing `validate`, with its reason. -/
def checkDnsNames : List String → Option (String × PolicyError)
  | [] => none
  | n :: rest =>
    match validate n with
    | .error e => some (n, e)
    | .ok () => checkDnsNames rest

/-- First requested IP outside the allowed loopback/private ranges. -/
def checkIps : List IpAddr → Option IpAddr
  | [] => none
  | ip :: rest => if ipAllowed ip then checkIps rest else some ip

/-- Modelled from the spec: `ca.maybe_rotate_intermediate` (package
`internal/tls/ca`, not in this tree).  If the intermediate expires in 30
days or less, it is replaced by a fresh one-year intermediate; the
issuer's inventory is untouched. -/
def maybeRotateIntermediate (st : IssuerState) (now : Nat) : IssuerState :=
  if st.intermediateNotAfter ≤ now + 30 * 86400 then
    { st with intermediateNotAfter := now + 365 * 86400 }
  else st

/-- Requested validity resolved against the default. -/
def resolveValidity (validFor : Nat) : Nat :=
  if validFor = 0 then defaultValidity else validFor

/-- The inventory record created by an issuance at time `now`. -/
def issuedRecord (st : IssuerState) (now : Nat) (req : IssueRequest) : Record :=
  { serial := st.nextSerial
    subject := req.dnsNames.headD ""
    dnsSans := normalizeDns req.dnsNames
    ipSans := req.ips.dedup
    notBefore := now
    notAfter := now + resolveValidity req.validFor
    revoked := false }

/-- The certificate view of an inventory record. -/
def certOfRecord (r : Record) : Certificate :=
  { dnsSans := r.dnsSans
    ipSans := r.ipSans
    serial := r.serial
    subject := r.subject
    notBefore := r.notBefore
    notAfter := r.notAfter }

/-- Modelled from the spec: the inventory update of an issuance.  The
spec's invariant (§3) demands at most one non-revoked record per exact
normalized SAN set, so a new issuance supersedes (marks revoked) any
previous non-revoked record with the same SANs; records are never
deleted (expired records are kept for audit). -/
def supersede (dns : List String) (ips : List IpAddr) (r : Record) : Record :=
  if r.revoked = false ∧ r.dnsSans = dns ∧ r.ipSans = ips then
    { r with revoked := true }
  else r

/-- Modelled from the spec: `issuer.issue` (package `internal/tls/issuer`,
not in this tree).  Always produces a fresh certificate, bypassing the
cache: every DNS SAN is validated through the policy and every IP through
the range check (the first offender is returned as the error); the
intermediate-rotation check runs before signing; the new leaf's SANs are
the normalized request SANs; the record is appended to the inventory and
the serial supply advances. -/
def issue (st : IssuerState) (now : Nat) (req : IssueRequest) :
    Except IssueError (Certificate × IssuerState) :=
  match checkDnsNames req.dnsNames with
  | some ne => .error (.policyViolation ne.1 ne.2)
  | none =>
    match checkIps req.ips with
    | some ip => .error (.ipNotAllowed ip)
    | none =>
      .ok (certOfRecord (issuedRecord (maybeRotateIntermediate st now) now req),
        { maybeRotateIntermediate st now with
          inventory :=
            ((maybeRotateIntermediate st now).inventory.map
              (supersede (normalizeDns req.dnsNames) req.ips.dedup)) ++
              [issuedRecord (maybeRotateIntermediate st now) now req]
          nextSerial := (maybeRotateIntermediate st now).nextSerial + 1 })

/-- The serving-cache lookup: the first non-revoked, unexpired record
whose normalized SAN sets match the request exactly.  A request whose
SANs differ in any way misses. -/
def cacheLookup (st : IssuerState) (now : Nat) (dns : List String)
    (ips : List IpAddr) : Option Record :=
  st.inventory.find? (fun r =>
    !r.revoked && decide (now < r.notAfter) && decide (r.dnsSans = dns) &&
      decide (r.ipSans = ips))

/-- The renewal threshold: half of the original validity, with a floor of
one hour. -/
def renewalThreshold (validity : Nat) : Nat :=
  max (validity / 2) 3600

/-- The single-domain request issued by `ensure`. -/
def ensureReq (domain : String) : IssueRequest :=
  { dnsNames := [domain], ips := [], validFor := 0 }

/-- Modelled from the spec: `issuer.ensure` (package `internal/tls/issuer`,
not in this tree).  The domain is validated first (§2: policy runs before
the cache is consulted); then the cached record is returned if its
remaining lifetime exceeds the renewal threshold; otherwise a fresh
certificate is issued. -/
def ensure (st : IssuerState) (now : Nat) (domain : String) :
    Except IssueError (Certificate × IssuerState) :=
  match validate domain with
  | .error e => .error (.policyViolation domain e)
  | .ok () =>
    match cacheLookup st now (normalizeDns [domain]) [] with
    | some r =>
      if renewalThreshold (r.notAfter - r.notBefore) < r.notAfter - now then
        .ok (certOfRecord r, st)
      else issue st now (ensureReq domain)
    | none => issue st now (ensureReq domain)

/-- Mark the record with the given serial revoked, leaving others alone. -/
def markRevoked (serial : Nat) (r : Record) : Record :=
  if r.serial = serial then { r with revoked := true } else r

/-- Modelled from the spec: `issuer.revoke` (package `internal/tls/issuer`,
not in this tree).  Marks the serial revoked in the inventory; the record
stays (files are not deleted) but, being revoked, is no longer served from
the cache.  Revoking an unknown serial returns `NotFound` and changes
nothing. -/
def revoke (st : IssuerState) (serial : Nat) : Except IssueError IssuerState :=
  if st.inventory.any (fun r => decide (r.serial = serial)) then
    .ok { st with inventory := st.inventory.map (markRevoked serial) }
  else .error .notFound

/-- A record that the serving cache may return at time `now`: not revoked
and not yet expired. -/
def Live (now : Nat) (r : Record) : Prop :=
  r.revoked = false ∧ now < r.notAfter

/-- The inventory invariant of spec §3: serial numbers are pairwise
distinct across all records, revoked or not, and for any normalized SAN
set at most one non-revoked, unexpired record exists at any time. -/
def InventoryInvariant (st : IssuerState) : Prop :=
  (st.inventory.map Record.serial).Nodup ∧
    ∀ now r1 r2, r1 ∈ st.inventory → r2 ∈ st.inventory →
      Live now r1 → Live now r2 →
      r1.dnsSans = r2.dnsSans → r1.ipSans = r2.ipSans → r1 = r2

/-- The serial-supply discipline of the model: every recorded serial is
below the next fresh serial. -/
def SerialSupplyOk (st : IssuerState) : Prop :=
  ∀ r ∈ st.inventory, r.serial < st.nextSerial

/-- A fresh store: empty inventory, intermediate far from expiry. -/
def sampleEmptyState : IssuerState :=
  { inventory := [], nextSerial := 0, intermediateNotAfter := 1000000000 }

/-- A wildcard issuance request with a mixed-case name, an explicit apex
and a loopback IP. -/
def sampleWildReq : IssueRequest :=
  { dnsNames := ["*.App.localhost", "app.localhost"]
    ips := [.v4 127 0 0 1]
    validFor := 0 }

/-- The certificate produced by `issue sampleEmptyState 0 sampleWildReq`. -/
def sampleWildCert : Certificate :=
  { dnsSans := ["*.app.localhost", "app.localhost"]
    ipSans := [.v4 127 0 0 1]
    serial := 0
    subject := "*.App.localhost"
    notBefore := 0
    notAfter := 86400 }

/-- The state produced by `issue sampleEmptyState 0 sampleWildReq`. -/
def sampleWildState : IssuerState :=
  { inventory :=
      [{ serial := 0
         subject := "*.App.localhost"
         dnsSans := ["*.app.localhost", "app.localhost"]
         ipSans := [.v4 127 0 0 1]
         notBefore := 0
         notAfter := 86400
         revoked := false }]
    nextSerial := 1
    intermediateNotAfter := 1000000000 }

/-- A live record issued at time 1000 with the default 24h validity. -/
def sampleRecordA : Record :=
  { serial := 5
    subject := "myapp.localhost"
    dnsSans := ["myapp.localhost"]
    ipSans := []
    notBefore := 1000
    notAfter := 87400
    revoked := false }

/-- A store holding `sampleRecordA`. -/
def sampleCachedState : IssuerState :=
  { inventory := [sampleRecordA], nextSerial := 6, intermediateNotAfter := 1000000000 }

/-- The certificate produced by renewing `sampleRecordA` 13 hours after
its `notBefore` (remaining lifetime 11h, below the 12h threshold). -/
def sampleRenewedCert : Certificate :=
  { dnsSans := ["myapp.localhost"]
    ipSans := []
    serial := 6
    subject := "myapp.localhost"
    notBefore := 47800
    notAfter := 134200 }

/-- The state produced by that renewal: the old record superseded, a new
record appended. -/
def sampleRenewedState : IssuerState :=
  { inventory :=
      [{ sampleRecordA with revoked := true },
       { serial := 6
         subject := "myapp.localhost"
         dnsSans := ["myapp.localhost"]
         ipSans := []
         notBefore := 47800
         notAfter := 134200
         revoked := false }]
    nextSerial := 7
    intermediateNotAfter := 1000000000 }

/-- The state produced by `revoke sampleCachedState 5`. -/
def sampleRevokedState : IssuerState :=
  { inventory := [{ sampleRecordA with revoked := true }]
    nextSerial := 6
    intermediateNotAfter := 1000000000 }

/-- The certificate produced by `ensure sampleEmptyState 0` of
`myapp.localhost`. -/
def sampleEnsuredCert : Certificate :=
  { dnsSans := ["myapp.localhost"]
    ipSans := []
    serial := 0
    subject := "myapp.localhost"
    notBefore := 0
    notAfter := 86400 }

/-- The state produced by that `ensure` call. -/
def sampleEnsuredState : IssuerState :=
  { inventory :=
      [{ serial := 0
         subject := "myapp.localhost"
         dnsSans := ["myapp.localhost"]
         ipSans := []
         notBefore := 0
         notAfter := 86400
         revoked := false }]
    nextSerial := 1
    intermediateNotAfter := 1000000000 }

end LocalTLS

open LocalTLS

/-- `startsWithList` holds exactly when the scanned list is the pattern
followed by some tail. -/
theorem startsWithList_iff_append (p l : List Char) :
    Probe.startsWithList p l = true ↔ ∃ t, l = p ++ t := by
  induction p generalizing l with
  | nil =>
    simp [Probe.startsWithList]
  | cons x xs ih =>
    cases l with
    | nil =>
      simp [Probe.startsWithList]
    | cons c cs =>
      simp only [Probe.startsWithList, Bool.and_eq_true, decide_eq_true_eq, ih,
        List.cons_append, List.cons.injEq]
      constructor
      · rintro ⟨rfl, t, rfl⟩
        exact ⟨t, rfl, rfl⟩
      · rintro ⟨t, rfl, rfl⟩
        exact ⟨rfl, t, rfl⟩

/-- C8: `IsHTTP` classifies a service by its first response line only,
case-insensitively: on a successfully read line `L` it returns `true`
exactly when uppercasing the whitespace-trimmed `L` yields a string with
prefix `HTTP/`; in particular `http/1.0 200 OK` and `  HTTP/1.1 404`
classify as HTTP while a non-HTTP banner does not. -/
theorem isHTTP_first_line_classification :
    (∀ L : String, Probe.IsHTTP (.line L) = true ↔
      ∃ t : List Char,
        (Probe.goToUpper (Probe.goTrimSpace L)).data = ("HTTP/").data ++ t) ∧
    Probe.IsHTTP (.line ("http/1.0 200 OK")) = true ∧
    Probe.IsHTTP (.line ("  HTTP/1.1 404")) = true ∧
    Probe.IsHTTP (.line ("SSH-2.0-OpenSSH")) = false := by
  refine ⟨fun L => ?_, rfl, rfl, rfl⟩
  exact startsWithList_iff_append ("HTTP/").data (Probe.goToUpper (Probe.goTrimSpace L)).data

/-- C9: `Probe` and `IsHTTP` apply the same classifier to the first
response line: for every line `L`, `Probe`'s `IsHTTP` field equals what
`IsHTTP` computes for `L`, and `Probe`'s `Response` field is the
whitespace-trimmed `L`. -/
theorem probe_agrees_with_isHTTP :
    ∀ L : String,
      (Probe.Probe (.line L)).isHTTP = Probe.IsHTTP (.line L) ∧
      (Probe.Probe (.line L)).response = Probe.goTrimSpace L :=
  fun _ => ⟨rfl, rfl⟩

/-- C10: on every failure path (dial, write, or first-line read fails)
`Probe` returns exactly `ProbeResult{IsHTTP: false, Response: ""}`, so a
non-empty `Response` can only arise from a successfully read line. -/
theorem probe_failure_paths :
    (∀ net : Probe.NetOutcome,
      net = .dialFail ∨ net = .writeFail ∨ net = .readFail →
      Probe.Probe net = { isHTTP := false, response := "" }) ∧
    (∀ net : Probe.NetOutcome, (Probe.Probe net).response ≠ "" →
      ∃ l : String, net = .line l) := by
  constructor
  · rintro net (rfl | rfl | rfl) <;> rfl
  · intro net h
    cases net with
    | dialFail => exact absurd rfl h
    | writeFail => exact absurd rfl h
    | readFail => exact absurd rfl h
    | line l => exact ⟨l, rfl⟩

/-- Witness for C10 at concrete outcomes: a failed write yields the empty
result, and a read line is the only source of a non-empty response. -/
theorem probe_failure_paths_witness :
    Probe.Probe .writeFail = { isHTTP := false, response := "" } ∧
    ∃ l : String, Probe.NetOutcome.line ("GET") = .line l :=
  ⟨probe_failure_paths.1 .writeFail (Or.inr (Or.inl rfl)),
   probe_failure_paths.2 (.line ("GET")) (by decide)⟩

/-- C1: whenever `validate` accepts a name, its right-most label is in the
hardcoded allowlist (or the name carries the `home.arpa` suffix), its
effective TLD is not in the embedded IANA blocklist, and the wildcard
rules hold (no `*` outside the left-most label, hence at most one);
and a name passing the earlier rules whose right-most label is outside the
allowlist is rejected with `TldNotAllowed`. -/
theorem validate_ok_allowlist :
    ∀ name : String,
      (validate name = .ok () →
        ∃ labels, parseName name = some labels ∧
          allowlistOk labels = true ∧
          blocklistHit labels = false ∧
          ("*") ∉ labels.tail ∧
          labels.count ("*") ≤ 1) ∧
      (∀ labels, parseName name = some labels → ("*") ∉ labels.tail →
        ¬ (effectiveBase labels).length < 2 → allowlistOk labels = false →
        validate name = .error .tldNotAllowed) := by
  intro name
  constructor
  · intro h
    unfold validate at h
    split at h
    · exact absurd h (by simp)
    next labels heq =>
      refine ⟨labels, heq, ?_⟩
      split at h
      · exact absurd h (by simp)
      next hstar =>
        split at h
        · exact absurd h (by simp)
        next hdepth =>
          split at h
          · exact absurd h (by simp)
          next hallow =>
            split at h
            · exact absurd h (by simp)
            next hblock =>
              refine ⟨?_, ?_, hstar, ?_⟩
              · revert hallow
                cases allowlistOk labels <;> simp
              · revert hblock
                cases blocklistHit labels <;> simp
              · cases labels with
                | nil => simp
                | cons a t =>
                  have ht : t.count ("*") = 0 :=
                    List.count_eq_zero.mpr (by simpa using hstar)
                  rw [List.count_cons, ht]
                  split <;> simp
  · intro labels hp hstar hdepth hallow
    simp only [validate, hp]
    rw [if_neg hstar, if_neg hdepth, if_pos hallow]

/-- Witness for C1: `evil.com` passes parsing, wildcard and depth checks
but its TLD is outside the allowlist, so it is rejected with
`TldNotAllowed`; `myapp.localhost` is accepted and satisfies all the
stated conditions. -/
theorem validate_ok_allowlist_witness :
    validate ("evil.com") = .error .tldNotAllowed ∧
    ∃ labels, parseName ("myapp.localhost") = some labels ∧
      allowlistOk labels = true ∧ blocklistHit labels = false ∧
      ("*") ∉ labels.tail ∧ labels.count ("*") ≤ 1 :=
  ⟨(validate_ok_allowlist ("evil.com")).2 ["evil", "com"] rfl (by decide)
      (by decide) rfl,
   (validate_ok_allowlist ("myapp.localhost")).1 rfl⟩

/-- C2: `validate` rejects a wildcard name whose effective base has fewer
than 2 labels with `WildcardTooShallow` and accepts wildcards at depth 2:
`*.localhost` is rejected, `*.app.localhost` accepted; `ensure` surfaces
the rejection as a `PolicyViolation` carrying `WildcardTooShallow` and
returns no certificate and no new state (so nothing is written). -/
theorem wildcard_depth_rule :
    (∀ (name : String) (labels : List String), parseName name = some labels →
      labels.head? = some ("*") → ("*") ∉ labels.tail →
      labels.tail.length < 2 →
      validate name = .error .wildcardTooShallow) ∧
    validate ("*.localhost") = .error .wildcardTooShallow ∧
    validate ("*.app.localhost") = .ok () ∧
    ∀ (st : IssuerState) (now : Nat),
      ensure st now ("*.localhost") =
        .error (.policyViolation ("*.localhost") .wildcardTooShallow) := by
  refine ⟨?_, rfl, rfl, fun st now => rfl⟩
  intro name labels hp hhead hstar hlen
  simp only [validate, hp]
  rw [if_neg hstar, if_pos]
  unfold effectiveBase
  rw [if_pos hhead]
  exact hlen

/-- Witness for C2 at the concrete shallow wildcard `*.localhost`. -/
theorem wildcard_depth_rule_witness :
    validate ("*.localhost") = .error .wildcardTooShallow :=
  wildcard_depth_rule.1 ("*.localhost") ["*", "localhost"] rfl rfl
    (by decide) (by decide)

/-- Intermediate rotation never touches the inventory. -/
theorem rotate_inventory (st : IssuerState) (now : Nat) :
    (maybeRotateIntermediate st now).inventory = st.inventory := by
  unfold maybeRotateIntermediate
  split <;> rfl

/-- Intermediate rotation never touches the serial supply. -/
theorem rotate_nextSerial (st : IssuerState) (now : Nat) :
    (maybeRotateIntermediate st now).nextSerial = st.nextSerial := by
  unfold maybeRotateIntermediate
  split <;> rfl

/-- Superseding preserves the serial number. -/
theorem supersede_serial (dns : List String) (ips : List IpAddr) (r : Record) :
    (supersede dns ips r).serial = r.serial := by
  unfold supersede
  split <;> rfl

/-- A superseded record that is still live was untouched, is live, and its
SANs differ from the superseding SAN set. -/
theorem live_supersede {now : Nat} {dns : List String} {ips : List IpAddr}
    {r : Record} (h : Live now (supersede dns ips r)) :
    supersede dns ips r = r ∧ Live now r ∧
      ¬(r.dnsSans = dns ∧ r.ipSans = ips) := by
  unfold Live at h
  unfold supersede at h ⊢
  split at h
  next hc =>
    exact absurd h.1 (by simp)
  next hc =>
    rw [if_neg hc]
    exact ⟨rfl, h, fun hsans =>
      hc ⟨h.1, hsans.1, hsans.2⟩⟩

/-- `markRevoked` preserves the serial number. -/
theorem markRevoked_serial (s : Nat) (r : Record) :
    (markRevoked s r).serial = r.serial := by
  unfold markRevoked
  split <;> rfl

/-- A record that is still live after `markRevoked` was untouched. -/
theorem live_markRevoked {now s : Nat} {r : Record}
    (h : Live now (markRevoked s r)) : markRevoked s r = r := by
  unfold Live at h
  unfold markRevoked at h ⊢
  split at h
  next hc =>
    exact absurd h.1 (by simp)
  next hc =>
    rw [if_neg hc]

/-- Marking the same serial revoked twice equals marking it once. -/
theorem markRevoked_markRevoked (s : Nat) (r : Record) :
    markRevoked s (markRevoked s r) = markRevoked s r := by
  unfold markRevoked
  by_cases hc : r.serial = s <;> simp [hc]

/-- Shape of a successful issuance: the returned certificate and the new
state in terms of `issuedRecord` and `supersede`. -/
theorem issue_ok_elim {st : IssuerState} {now : Nat} {req : IssueRequest}
    {cert : Certificate} {st' : IssuerState}
    (h : issue st now req = .ok (cert, st')) :
    cert = certOfRecord (issuedRecord (maybeRotateIntermediate st now) now req) ∧
    st'.inventory =
      (st.inventory.map (supersede (normalizeDns req.dnsNames) req.ips.dedup)) ++
        [issuedRecord (maybeRotateIntermediate st now) now req] ∧
    st'.nextSerial = st.nextSerial + 1 := by
  unfold issue at h
  split at h
  · exact absurd h (by simp)
  split at h
  · exact absurd h (by simp)
  simp only [Except.ok.injEq, Prod.mk.injEq] at h
  obtain ⟨hc, hs⟩ := h
  subst hs
  exact ⟨hc.symm, by rw [rotate_inventory], by rw [rotate_nextSerial]⟩

/-- The serial of an issued certificate. -/
theorem issue_ok_serial {st : IssuerState} {now : Nat} {req : IssueRequest}
    {cert : Certificate} {st' : IssuerState}
    (h : issue st now req = .ok (cert, st')) :
    cert.serial = st.nextSerial := by
  obtain ⟨hc, -, -⟩ := issue_ok_elim h
  rw [hc]
  show (issuedRecord (maybeRotateIntermediate st now) now req).serial = _
  show (maybeRotateIntermediate st now).nextSerial = _
  rw [rotate_nextSerial]

/-- A successful issuance returns a serial absent from the previous
inventory and grows the inventory by exactly one record. -/
theorem fresh_serial_of_issue {st : IssuerState} {now : Nat}
    {req : IssueRequest} {cert : Certificate} {st' : IssuerState}
    (hser : SerialSupplyOk st)
    (h : issue st now req = .ok (cert, st')) :
    cert.serial ∉ st.inventory.map Record.serial ∧
    st'.inventory.length = st.inventory.length + 1 := by
  obtain ⟨-, hinv, -⟩ := issue_ok_elim h
  constructor
  · intro hmem
    obtain ⟨a, ha, hsa⟩ := List.mem_map.mp hmem
    rw [issue_ok_serial h] at hsa
    exact absurd hsa (Nat.ne_of_lt (hser a ha))
  · rw [hinv]
    simp

/-- Cache hits are exact: the returned record is a live inventory record
whose normalized SAN sets equal the request exactly. -/
theorem cacheLookup_some {st : IssuerState} {now : Nat} {dns : List String}
    {ips : List IpAddr} {r : Record}
    (h : cacheLookup st now dns ips = some r) :
    r ∈ st.inventory ∧ r.revoked = false ∧ now < r.notAfter ∧
      r.dnsSans = dns ∧ r.ipSans = ips := by
  have hm := List.mem_of_find?_eq_some h
  have hp := List.find?_some h
  simp only [Bool.and_eq_true, Bool.not_eq_true', decide_eq_true_eq] at hp
  exact ⟨hm, hp.1.1.1, hp.1.1.2, hp.1.2, hp.2⟩

/-- Issuance preserves the inventory invariant and the serial supply. -/
theorem issue_preserves {st : IssuerState}
    (h1 : InventoryInvariant st) (h2 : SerialSupplyOk st)
    {now : Nat} {req : IssueRequest} {cert : Certificate} {st' : IssuerState}
    (h : issue st now req = .ok (cert, st')) :
    InventoryInvariant st' ∧ SerialSupplyOk st' := by
  obtain ⟨-, hinv, hser⟩ := issue_ok_elim h
  obtain ⟨h1a, h1b⟩ := h1
  have hnewser :
      (issuedRecord (maybeRotateIntermediate st now) now req).serial =
        st.nextSerial := by
    show (maybeRotateIntermediate st now).nextSerial = st.nextSerial
    exact rotate_nextSerial st now
  have hcomp :
      Record.serial ∘ supersede (normalizeDns req.dnsNames) req.ips.dedup =
        Record.serial :=
    funext fun r => supersede_serial _ _ r
  refine ⟨⟨?_, ?_⟩, ?_⟩
  · rw [hinv, List.map_append, List.map_map, hcomp, List.nodup_append]
    refine ⟨h1a, by simp, ?_⟩
    intro a ha hb
    simp only [List.map_cons, List.map_nil, List.mem_singleton] at hb
    rw [hb, hnewser] at ha
    obtain ⟨r, hr, hra⟩ := List.mem_map.mp ha
    exact absurd hra (Nat.ne_of_lt (h2 r hr))
  · intro t r1 r2 hr1 hr2 hl1 hl2 hdns hips
    rw [hinv] at hr1 hr2
    rcases List.mem_append.mp hr1 with hr1m | hr1s
    · obtain ⟨a, ha, rfl⟩ := List.mem_map.mp hr1m
      obtain ⟨hea, hla, hna⟩ := live_supersede hl1
      rcases List.mem_append.mp hr2 with hr2m | hr2s
      · obtain ⟨b, hb, rfl⟩ := List.mem_map.mp hr2m
        obtain ⟨heb, hlb, hnb⟩ := live_supersede hl2
        rw [hea, heb] at hdns hips ⊢
        exact h1b t a b ha hb hla hlb hdns hips
      · have hr2n := List.mem_singleton.mp hr2s
        exfalso
        apply hna
        rw [hea] at hdns hips
        constructor
        · rw [hdns, hr2n]; rfl
        · rw [hips, hr2n]; rfl
    · have hr1n := List.mem_singleton.mp hr1s
      rcases List.mem_append.mp hr2 with hr2m | hr2s
      · obtain ⟨b, hb, rfl⟩ := List.mem_map.mp hr2m
        obtain ⟨heb, hlb, hnb⟩ := live_supersede hl2
        exfalso
        apply hnb
        rw [heb] at hdns hips
        constructor
        · rw [← hdns, hr1n]; rfl
        · rw [← hips, hr1n]; rfl
      · rw [hr1n, List.mem_singleton.mp hr2s]
  · intro r hr
    rw [hinv] at hr
    rw [hser]
    rcases List.mem_append.mp hr with hm | hs
    · obtain ⟨a, ha, rfl⟩ := List.mem_map.mp hm
      rw [supersede_serial]
      exact Nat.lt_succ_of_lt (h2 a ha)
    · rw [List.mem_singleton.mp hs, hnewser]
      exact Nat.lt_succ_self _

/-- `ensure` preserves the inventory invariant and the serial supply. -/
theorem ensure_preserves {st : IssuerState}
    (h1 : InventoryInvariant st) (h2 : SerialSupplyOk st)
    {now : Nat} {d : String} {cert : Certificate} {st' : IssuerState}
    (h : ensure st now d = .ok (cert, st')) :
    InventoryInvariant st' ∧ SerialSupplyOk st' := by
  unfold ensure at h
  split at h
  · exact absurd h (by simp)
  split at h
  · split at h
    · simp only [Except.ok.injEq, Prod.mk.injEq] at h
      rw [← h.2]
      exact ⟨h1, h2⟩
    · exact issue_preserves h1 h2 h
  · exact issue_preserves h1 h2 h

/-- `revoke` preserves the inventory invariant and the serial supply. -/
theorem revoke_preserves {st : IssuerState}
    (h1 : InventoryInvariant st) (h2 : SerialSupplyOk st)
    {s : Nat} {st' : IssuerState} (h : revoke st s = .ok st') :
    InventoryInvariant st' ∧ SerialSupplyOk st' := by
  unfold revoke at h
  split at h
  · simp only [Except.ok.injEq] at h
    subst h
    obtain ⟨h1a, h1b⟩ := h1
    refine ⟨⟨?_, ?_⟩, ?_⟩
    · show ((st.inventory.map (markRevoked s)).map Record.serial).Nodup
      rw [List.map_map]
      have hcomp : Record.serial ∘ markRevoked s = Record.serial :=
        funext fun r => markRevoked_serial s r
      rw [hcomp]
      exact h1a
    · intro t r1 r2 hr1 hr2 hl1 hl2 hdns hips
      obtain ⟨a, ha, rfl⟩ := List.mem_map.mp hr1
      obtain ⟨b, hb, rfl⟩ := List.mem_map.mp hr2
      have hea := live_markRevoked hl1
      have heb := live_markRevoked hl2
      rw [hea] at hl1 hdns hips ⊢
      rw [heb] at hl2 hdns hips ⊢
      exact h1b t a b ha hb hl1 hl2 hdns hips
    · intro r hr
      obtain ⟨a, ha, rfl⟩ := List.mem_map.mp hr
      show (markRevoked s a).serial < st.nextSerial
      rw [markRevoked_serial]
      exact h2 a ha
  · exact absurd h (by simp)

/-- C3: the SAN set of every successfully issued certificate is the
deduplicated, lowercased union of the requested DNS names and the
requested IPs, and every requested wildcard `*.X` additionally
contributes its apex `X` to the DNS SAN set. -/
theorem issue_san_normalization :
    ∀ (st : IssuerState) (now : Nat) (req : IssueRequest)
      (cert : Certificate) (st' : IssuerState),
      issue st now req = .ok (cert, st') →
      cert.dnsSans.Nodup ∧ cert.ipSans.Nodup ∧
      (∀ s : String, s ∈ cert.dnsSans ↔
        ∃ n ∈ req.dnsNames, s ∈ expandOne (lowerName n)) ∧
      (∀ ip : IpAddr, ip ∈ cert.ipSans ↔ ip ∈ req.ips) ∧
      (∀ n ∈ req.dnsNames, ∀ rest : List Char,
        (lowerName n).data = '*' :: '.' :: rest →
        (⟨rest⟩ : String) ∈ cert.dnsSans) := by
  intro st now req cert st' h
  obtain ⟨hc, -, -⟩ := issue_ok_elim h
  have hdns : cert.dnsSans = normalizeDns req.dnsNames := by rw [hc]; rfl
  have hips : cert.ipSans = req.ips.dedup := by rw [hc]; rfl
  have hmem : ∀ s : String, s ∈ cert.dnsSans ↔
      ∃ n ∈ req.dnsNames, s ∈ expandOne (lowerName n) := by
    intro s
    rw [hdns]
    unfold normalizeDns
    rw [List.mem_dedup, List.mem_flatMap]
    constructor
    · rintro ⟨a, ha, hs⟩
      obtain ⟨n, hn, rfl⟩ := List.mem_map.mp ha
      exact ⟨n, hn, hs⟩
    · rintro ⟨n, hn, hs⟩
      exact ⟨lowerName n, List.mem_map.mpr ⟨n, hn, rfl⟩, hs⟩
  refine ⟨?_, ?_, hmem, ?_, ?_⟩
  · rw [hdns]
    exact List.nodup_dedup _
  · rw [hips]
    exact List.nodup_dedup _
  · intro ip
    rw [hips]
    exact List.mem_dedup
  · intro n hn rest hrest
    refine (hmem _).mpr ⟨n, hn, ?_⟩
    unfold expandOne
    rw [hrest]
    exact List.mem_cons_of_mem _ (List.mem_cons_self _ _)

/-- Witness for C3: issuing `{*.App.localhost, app.localhost, 127.0.0.1}`
yields a deduplicated SAN set in which the wildcard apex appears. -/
theorem issue_san_normalization_witness :
    sampleWildCert.dnsSans.Nodup ∧
    (("app.localhost" : String) ∈ sampleWildCert.dnsSans ↔
      ∃ n ∈ sampleWildReq.dnsNames,
        ("app.localhost" : String) ∈ expandOne (lowerName n)) :=
  ⟨(issue_san_normalization sampleEmptyState 0 sampleWildReq sampleWildCert
      sampleWildState rfl).1,
   (issue_san_normalization sampleEmptyState 0 sampleWildReq sampleWildCert
      sampleWildState rfl).2.2.1 ("app.localhost")⟩

/-- C5: a successful `ensure` returns the cached certificate without
issuing exactly when the cache holds a non-revoked, unexpired record with
exactly-matching SANs whose remaining lifetime exceeds
`max(validity / 2, 1h)`; otherwise it issues a fresh certificate with a
new serial, growing the inventory by one record. -/
theorem ensure_renewal_threshold :
    ∀ (st : IssuerState) (now : Nat) (d : String) (cert : Certificate)
      (st' : IssuerState), SerialSupplyOk st →
      ensure st now d = .ok (cert, st') →
      (∀ r, cacheLookup st now (normalizeDns [d]) [] = some r →
        (renewalThreshold (r.notAfter - r.notBefore) < r.notAfter - now →
          cert = certOfRecord r ∧ st' = st) ∧
        (¬ renewalThreshold (r.notAfter - r.notBefore) < r.notAfter - now →
          cert.serial ∉ st.inventory.map Record.serial ∧
          st'.inventory.length = st.inventory.length + 1)) ∧
      (cacheLookup st now (normalizeDns [d]) [] = none →
        cert.serial ∉ st.inventory.map Record.serial ∧
        st'.inventory.length = st.inventory.length + 1) := by
  intro st now d cert st' hser h
  unfold ensure at h
  split at h
  · exact absurd h (by simp)
  split at h
  next r0 heq =>
    split at h
    next hthr =>
      simp only [Except.ok.injEq, Prod.mk.injEq] at h
      refine ⟨fun r hr => ?_, fun hn => ?_⟩
      · rw [heq] at hr
        injection hr with hr
        subst hr
        exact ⟨fun _ => ⟨h.1.symm, h.2.symm⟩, fun hcon => absurd hthr hcon⟩
      · rw [heq] at hn
        exact absurd hn (by simp)
    next hthr =>
      refine ⟨fun r hr => ?_, fun hn => ?_⟩
      · rw [heq] at hr
        injection hr with hr
        subst hr
        exact ⟨fun hcon => absurd hcon hthr,
          fun _ => fresh_serial_of_issue hser h⟩
      · rw [heq] at hn
        exact absurd hn (by simp)
  next heq =>
    refine ⟨fun r hr => ?_, fun _ => fresh_serial_of_issue hser h⟩
    rw [heq] at hr
    exact absurd hr (by simp)

/-- Witness for C5: renewing 13 hours after `notBefore` (remaining 11h,
threshold 12h) issues a new serial and appends one record. -/
theorem ensure_renewal_threshold_witness :
    sampleRenewedCert.serial ∉ sampleCachedState.inventory.map Record.serial ∧
    sampleRenewedState.inventory.length =
      sampleCachedState.inventory.length + 1 :=
  ((ensure_renewal_threshold sampleCachedState 47800 ("myapp.localhost")
      sampleRenewedCert sampleRenewedState
      (by unfold SerialSupplyOk; decide) rfl).1
    sampleRecordA rfl).2 (by decide)

/-- C6: revocation is idempotent — a second `revoke` of the same serial
yields the same state; revoking a serial absent from the inventory
returns `NotFound` (the error carries no new state, so nothing changes);
after a revocation the serving cache never returns the revoked serial. -/
theorem revoke_idempotent :
    ∀ (st : IssuerState) (s : Nat),
      (∀ st1, revoke st s = .ok st1 → revoke st1 s = .ok st1) ∧
      ((∀ r ∈ st.inventory, r.serial ≠ s) →
        revoke st s = .error .notFound) ∧
      (∀ st1, revoke st s = .ok st1 →
        ∀ (now : Nat) (dns : List String) (ips : List IpAddr) (r : Record),
          cacheLookup st1 now dns ips = some r → r.serial ≠ s) := by
  intro st s
  refine ⟨?_, ?_, ?_⟩
  · intro st1 h
    unfold revoke at h
    split at h
    next hany =>
      simp only [Except.ok.injEq] at h
      subst h
      have hany2 :
          ((st.inventory.map (markRevoked s)).any
            (fun r => decide (r.serial = s))) = true := by
        rw [List.any_map]
        have hcomp :
            ((fun r => decide (r.serial = s)) ∘ markRevoked s) =
              fun r => decide (r.serial = s) :=
          funext fun r => by simp [Function.comp, markRevoked_serial]
        rw [hcomp]
        exact hany
      unfold revoke
      rw [hany2]
      simp only [if_true]
      rw [List.map_map]
      have hcomp2 : markRevoked s ∘ markRevoked s = markRevoked s :=
        funext fun r => markRevoked_markRevoked s r
      rw [hcomp2]
    next => exact absurd h (by simp)
  · intro hnone
    unfold revoke
    split
    next hany =>
      exfalso
      obtain ⟨r, hr, hp⟩ := List.any_eq_true.mp hany
      exact hnone r hr (of_decide_eq_true hp)
    next => rfl
  · intro st1 h now dns ips r hc
    unfold revoke at h
    split at h
    next hany =>
      simp only [Except.ok.injEq] at h
      subst h
      obtain ⟨hmem, hrev, -, -, -⟩ := cacheLookup_some hc
      obtain ⟨a, ha, rfl⟩ := List.mem_map.mp hmem
      intro hrs
      rw [markRevoked_serial] at hrs
      unfold markRevoked at hrev
      rw [if_pos hrs] at hrev
      simp at hrev
    next => exact absurd h (by simp)

/-- Witness for C6: revoking serial 5 a second time returns the same
state, and revoking the unknown serial 99 reports `NotFound`. -/
theorem revoke_idempotent_witness :
    revoke sampleRevokedState 5 = .ok sampleRevokedState ∧
    revoke sampleCachedState 99 = .error .notFound :=
  ⟨(revoke_idempotent sampleCachedState 5).1 sampleRevokedState rfl,
   (revoke_idempotent sampleCachedState 99).2.1 (by decide)⟩

/-- C7: the inventory invariant — pairwise-distinct serials across all
records and at most one non-revoked, unexpired record per exact
normalized SAN set — is preserved by `issue`, `ensure`, `revoke` and
intermediate rotation; and a cache hit matches the requested SAN sets
exactly (any difference is a miss). -/
theorem inventory_invariant_preservation :
    ∀ st : IssuerState, InventoryInvariant st → SerialSupplyOk st →
      (∀ (now : Nat) (req : IssueRequest) (cert : Certificate)
        (st' : IssuerState), issue st now req = .ok (cert, st') →
        InventoryInvariant st' ∧ SerialSupplyOk st') ∧
      (∀ (now : Nat) (d : String) (cert : Certificate) (st' : IssuerState),
        ensure st now d = .ok (cert, st') →
        InventoryInvariant st' ∧ SerialSupplyOk st') ∧
      (∀ (s : Nat) (st' : IssuerState), revoke st s = .ok st' →
        InventoryInvariant st' ∧ SerialSupplyOk st') ∧
      (∀ now : Nat, InventoryInvariant (maybeRotateIntermediate st now) ∧
        SerialSupplyOk (maybeRotateIntermediate st now)) ∧
      (∀ (now : Nat) (dns : List String) (ips : List IpAddr) (r : Record),
        cacheLookup st now dns ips = some r →
        r.dnsSans = dns ∧ r.ipSans = ips) := by
  intro st h1 h2
  refine ⟨fun now req cert st' h => issue_preserves h1 h2 h,
    fun now d cert st' h => ensure_preserves h1 h2 h,
    fun s st' h => revoke_preserves h1 h2 h,
    fun now => ⟨?_, ?_⟩,
    fun now dns ips r h =>
      ⟨(cacheLookup_some h).2.2.2.1, (cacheLookup_some h).2.2.2.2⟩⟩
  · unfold InventoryInvariant at h1 ⊢
    rw [rotate_inventory]
    exact h1
  · unfold SerialSupplyOk at h2 ⊢
    rw [rotate_inventory, rotate_nextSerial]
    exact h2

/-- Witness for C7: the invariant holds for the state produced by
`ensure` on a fresh store. -/
theorem inventory_invariant_preservation_witness :
    InventoryInvariant sampleEnsuredState ∧ SerialSupplyOk sampleEnsuredState :=
  (inventory_invariant_preservation sampleEmptyState
      ⟨List.nodup_nil, fun _ r1 _ h => absurd h (List.not_mem_nil r1)⟩
      (fun r hr => absurd hr (List.not_mem_nil r))).2.1
    0 ("myapp.localhost") sampleEnsuredCert sampleEnsuredState rfl
